import Mathlib

/-
Verification of the recipe cache and region-resolution subsystem of the
globedine repository.

The development shallowly embeds the relevant TypeScript source:
  - src/components/RecipePanel.tsx : the region-resolver filter
    (the activeRegion branch of filteredRecipes) together with its
    country-to-cuisine lookup table and mock-id range heuristic;
  - the recipe cache service (RecipeCache, getRecipes, and the cache
    initialization routine) with its localStorage persistence protocol;
  - src/hooks/useRecipes.ts : toggleFavorite.

Strings are compared the way the source compares them: case-insensitive
comparisons go through an ASCII lowercase map (the source applies
String.prototype.toLowerCase to ASCII data) and substring tests follow
String.prototype.includes.  The browser localStorage backing store is
modeled at the level of parsed shapes: a stored text is represented by
the value it deserializes to (a number, a list of strings, or a list of
recipe records), with one extra shape for text that fails to parse.
-/

namespace GlobeDine

/-! ## Generic association-list operations

JavaScript objects used as string-keyed dictionaries preserve insertion
order and update keys in place; these operations mirror that. -/

def lookupKV {α : Type} : List (String × α) → String → Option α
  | [], _ => none
  | (k, v) :: rest, key => if k = key then some v else lookupKV rest key

def setKV {α : Type} : List (String × α) → String → α → List (String × α)
  | [], key, v => [(key, v)]
  | (k, w) :: rest, key, v =>
    if k = key then (key, v) :: rest else (k, w) :: setKV rest key v

def removeKV {α : Type} (m : List (String × α)) (key : String) : List (String × α) :=
  m.filter (fun p => p.1 ≠ key)

/-! ## Case-insensitive string matching, following the source -/

/-- ASCII lowercase of one character, as toLowerCase acts on the ASCII
range used by the recipe data. -/
def lcChar (c : Char) : Char :=
  if 65 ≤ c.toNat ∧ c.toNat ≤ 90 then Char.ofNat (c.toNat + 32) else c

/-- Lowercased character sequence of a string. -/
def lower (s : String) : List Char := s.toList.map lcChar

/-- Whether the second character list occurs at the start of the first. -/
def startsWithL : List Char → List Char → Bool
  | _, [] => true
  | [], _ :: _ => false
  | c :: cs, p :: ps => c == p && startsWithL cs ps

/-- Whether the second character list occurs contiguously anywhere in the
first, as String.prototype.includes decides occurrence. -/
def inclL : List Char → List Char → Bool
  | [], pat => pat.isEmpty
  | c :: cs, pat => startsWithL (c :: cs) pat || inclL cs pat

/-- Case-insensitive containment: hay.toLowerCase().includes(pat.toLowerCase()). -/
def strIncl (hay pat : String) : Bool := inclL (lower hay) (lower pat)

/-- Whether the second string occurs at the start of the first, as
String.prototype.startsWith decides it. -/
def strStartsWith (s pre : String) : Bool := startsWithL s.toList pre.toList

/-- The string with its first n characters removed. -/
def dropChars (s : String) (n : Nat) : String := String.mk (s.toList.drop n)

/-- Whether a character is a hexadecimal digit. -/
def isHexDigitChar (c : Char) : Bool :=
  c.isDigit || (97 ≤ c.toNat && c.toNat ≤ 102) || (65 ≤ c.toNat && c.toNat ≤ 70)

/-- Value of a hexadecimal digit. -/
def hexDigitVal (c : Char) : Nat :=
  if c.isDigit then c.toNat - 48
  else if 97 ≤ c.toNat ∧ c.toNat ≤ 102 then c.toNat - 87
  else c.toNat - 55

/-- Integer parse in the style of parseInt with no radix argument: skip
leading whitespace, read an optional sign, then detect a 0x or 0X
prefix and read the maximal run of hexadecimal digits after it, or
otherwise read the maximal run of decimal digits; an empty run yields
NaN, modeled as none. -/
def jsParseInt (s : String) : Option Int :=
  let t := s.toList.dropWhile (fun c => c.isWhitespace)
  let signAndRest : Int × List Char :=
    match t with
    | '-' :: rest => (-1, rest)
    | '+' :: rest => (1, rest)
    | _ => (1, t)
  let hexCase : List Char → Option Int := fun u =>
    let hs := u.takeWhile (fun c => isHexDigitChar c)
    if hs.isEmpty then none
    else some (signAndRest.1 * (hs.foldl (fun a c => a * 16 + (hexDigitVal c : Int)) 0))
  let decCase : Option Int :=
    let ds := signAndRest.2.takeWhile (fun c => c.isDigit)
    if ds.isEmpty then none
    else some (signAndRest.1 * (ds.foldl (fun a c => a * 10 + ((c.toNat : Int) - 48)) 0))
  match signAndRest.2 with
  | '0' :: x :: rest => if x == 'x' || x == 'X' then hexCase rest else decCase
  | _ => decCase

/-! ## Data model -/

/-- The Recipe record of src/components/RecipePanel.tsx. -/
structure Recipe where
  id : String
  title : String
  country : String
  region : String
  prepTime : String
  image : String
  isFavorite : Bool
  description : String
  coordinates : Float × Float
  ingredients : Option (List String) := none
  instructions : Option (List String) := none
  dietaryTags : Option (List String) := none

/-! ## Region resolver (filteredRecipes, activeRegion branch) -/

/-- The continents array declared inside filteredRecipes. -/
def continentsList : List String :=
  ["North America", "South America", "Europe", "Asia", "Africa", "Australia", "Oceania"]

/-- The comprehensive country-to-cuisine table declared inside
filteredRecipes (RecipePanel.tsx lines 486 to 522), reproduced verbatim. -/
def countryToCuisine : List (String × String) :=
  [("Italy", "Italian"), ("Italia", "Italian"),
   ("France", "French"),
   ("España", "Spanish"), ("Spain", "Spanish"),
   ("Greece", "Greek"),
   ("Germany", "German"),
   ("United Kingdom", "British"), ("Great Britain", "British"),
   ("Russia", "Russian"),
   ("Portugal", "Portuguese"),
   ("China", "Chinese"),
   ("Japan", "Japanese"),
   ("Thailand", "Thai"),
   ("India", "Indian"),
   ("Korea", "Korean"), ("Korea, Republic of", "Korean"),
   ("Vietnam", "Vietnamese"),
   ("USA", "American"), ("United States", "American"),
   ("United States of America", "American"),
   ("Mexico", "Mexican"),
   ("Brasil", "Brazilian"), ("Brazil", "Brazilian"),
   ("Argentina", "Argentine"),
   ("Lebanon", "Middle Eastern"), ("Turkey", "Middle Eastern"),
   ("Iran", "Middle Eastern")]

/-- Closed-open interval test on integers. -/
def inRange (lo hi n : Int) : Bool := decide (lo ≤ n) && decide (n < hi)

/-- The per-cuisine mock-identifier range checks of filteredRecipes. -/
def mockIdRangeHit (cuisine : String) (n : Int) : Bool :=
  (cuisine == "Italian" && inRange 100 200 n) ||
  (cuisine == "Mexican" && inRange 200 300 n) ||
  (cuisine == "Chinese" && inRange 300 400 n) ||
  (cuisine == "Indian" && inRange 400 500 n) ||
  (cuisine == "Japanese" && inRange 500 600 n) ||
  (cuisine == "Thai" && inRange 600 700 n) ||
  (cuisine == "French" && inRange 700 800 n) ||
  (cuisine == "American" && inRange 800 900 n) ||
  (cuisine == "Spanish" && inRange 900 1000 n) ||
  (cuisine == "Greek" && inRange 1000 1100 n)

/-- The activeRegion branch of filteredRecipes in RecipePanel.tsx
(lines 481 to 576): decide whether recipe r is in scope for the selected
region or country name.  Since the branch is guarded by startsWith
"mock-", removing the first occurrence of "mock-" from the id equals
dropping its first five characters. -/
def resolveScope (r : Recipe) (scopeName : String) : Bool :=
  if continentsList.contains scopeName then
    lower r.region == lower scopeName
  else if lower r.country == lower scopeName then
    true
  else if strIncl r.country scopeName || strIncl scopeName r.country then
    true
  else
    match lookupKV countryToCuisine scopeName with
    | some targetCuisine =>
      if strIncl r.title targetCuisine ||
         (r.description != "" && strIncl r.description targetCuisine) then
        true
      else if strStartsWith r.id "mock-" then
        match jsParseInt (dropChars r.id 5) with
        | some n => mockIdRangeHit targetCuisine n
        | none => false
      else false
    | none => false

/-- The six continent labels named by the documented data model. -/
def continentLabelsSix : List String :=
  ["North America", "South America", "Europe", "Africa", "Asia", "Australia"]

/-- Whether a character list is a nonempty run of decimal digits. -/
def allDigits (l : List Char) : Bool := !l.isEmpty && l.all (fun c => c.isDigit)

/-- Numeric value of a digit run. -/
def digitsVal (l : List Char) : Nat := l.foldl (fun a c => a * 10 + (c.toNat - 48)) 0

/-- The documented layered decision written exactly as the documentation
states it: the continent layer uses only the six documented continent
labels, and the identifier layer applies only to identifiers of the
exact form mock-N with N a run of decimal digits.  This definition
exists to be compared against resolveScope, the embedding of the
source. -/
def resolveDocumented (r : Recipe) (scopeName : String) : Bool :=
  if continentLabelsSix.contains scopeName then
    lower r.region == lower scopeName
  else if lower r.country == lower scopeName then
    true
  else if strIncl r.country scopeName || strIncl scopeName r.country then
    true
  else
    match lookupKV countryToCuisine scopeName with
    | some targetCuisine =>
      if strIncl r.title targetCuisine || strIncl r.description targetCuisine then
        true
      else if strStartsWith r.id "mock-" && allDigits (dropChars r.id 5).toList then
        mockIdRangeHit targetCuisine (Int.ofNat (digitsVal (dropChars r.id 5).toList))
      else false
    | none => false

/-! ## toggleFavorite (src/hooks/useRecipes.ts lines 87 to 95) -/

/-- toggleFavorite maps over the recipe list, negating isFavorite on the
records whose id matches and keeping every other record as it is. -/
def toggleFavorite (id : String) (l : List Recipe) : List Recipe :=
  l.map (fun r => if r.id = id then { r with isFavorite := !r.isFavorite } else r)

/-! ## Cache store (RecipeCache and the cache service)

The localStorage backing store maps string keys to stored texts.  A
stored text is represented by its parsed shape: the store itself only
ever writes a numeric timestamp text, a JSON array of cuisine names, or
a JSON array of recipe records, and one extra shape stands for text
that JSON.parse rejects (or whose parsed value the loader cannot
iterate).  Exceptions are modeled with Except and Option: a function
returning none is one whose source form throws to its caller. -/

inductive Cell where
  | jNum (n : Nat)
  | jStrs (ss : List String)
  | jRecipes (rs : List Recipe)
  | bad

def cacheKeyBase : String := "global-cuisine-"

def cuisinesKey : String := "global-cuisine-cuisines"

def timestampKey : String := "global-cuisine-timestamp"

def cacheExpiry : Nat := 24 * 60 * 60 * 1000

def Storage : Type := List (String × Cell)

def getItem (σ : Storage) (k : String) : Option Cell := lookupKV σ k

def setItem (σ : Storage) (k : String) (v : Cell) : Storage := setKV σ k v

def removeItem (σ : Storage) (k : String) : Storage := removeKV σ k

/-- In-memory cuisine map together with the persisted backing store. -/
structure CacheState where
  mem : List (String × List Recipe)
  storage : Storage

/-- hasCuisine: the in-memory map holds a nonempty list for the key. -/
def hasCuisine (st : CacheState) (cuisine : String) : Bool :=
  match lookupKV st.mem cuisine with
  | some rs => !rs.isEmpty
  | none => false

/-- getRecipesForCuisine: the stored list, or the empty list if absent. -/
def getRecipesForCuisine (st : CacheState) (cuisine : String) : List Recipe :=
  (lookupKV st.mem cuisine).getD []

/-- getAllRecipes: concatenation of the stored lists in insertion order. -/
def getAllRecipes (st : CacheState) : List Recipe :=
  (st.mem.map (fun p => p.2)).flatten

/-- saveToLocalStorage: write the timestamp, the cuisine-name list, and
every per-cuisine entry. -/
def saveToLocalStorage (mem : List (String × List Recipe)) (now : Nat)
    (σ : Storage) : Storage :=
  let σ1 := setItem σ timestampKey (Cell.jNum now)
  let σ2 := setItem σ1 cuisinesKey (Cell.jStrs (mem.map (fun p => p.1)))
  mem.foldl (fun acc p => setItem acc (cacheKeyBase ++ p.1) (Cell.jRecipes p.2)) σ2

/-- addRecipes: overwrite the sequence for the key in memory, then
persist the full store with the current time as timestamp. -/
def addRecipes (st : CacheState) (cuisine : String) (recipes : List Recipe)
    (now : Nat) : CacheState :=
  let mem := setKV st.mem cuisine recipes
  { mem := mem, storage := saveToLocalStorage mem now st.storage }

/-- The cuisine-name list read by clearCache and the loader:
JSON.parse(getItem(cuisinesKey) or "[]").  A missing cell reads as the
empty list; a cell that does not hold a string list makes the reader
throw. -/
def readCuisineList (σ : Storage) : Option (List String) :=
  match getItem σ cuisinesKey with
  | none => some []
  | some (Cell.jStrs ss) => some ss
  | some _ => none

/-- clearCache on the backing store: remove the entry of every listed
cuisine, then the cuisine list and the timestamp. -/
def clearStorage (σ : Storage) : Option Storage :=
  (readCuisineList σ).map (fun cs =>
    let σ1 := cs.foldl (fun acc c => removeItem acc (cacheKeyBase ++ c)) σ
    removeItem (removeItem σ1 cuisinesKey) timestampKey)

/-- clearCache: empty the in-memory map and purge the backing store. -/
def clearCache (st : CacheState) : Option CacheState :=
  (clearStorage st.storage).map (fun σ => { mem := [], storage := σ })

/-- Deserialization of one persisted per-cuisine entry: a recipe-array
text loads, anything else throws. -/
def parseRecipes : Cell → Except Unit (List Recipe)
  | Cell.jRecipes rs => Except.ok rs
  | _ => Except.error ()

/-- The per-cuisine loading loop of loadFromLocalStorage: for each listed
cuisine, a missing entry is skipped, a loadable entry is stored, and a
failing entry throws out of the loop. -/
def loadEntries (σ : Storage) : List String → List (String × List Recipe) →
    Except Unit (List (String × List Recipe))
  | [], m => Except.ok m
  | c :: cs, m =>
    match getItem σ (cacheKeyBase ++ c) with
    | none => loadEntries σ cs m
    | some cell =>
      match parseRecipes cell with
      | Except.ok rs => loadEntries σ cs (setKV m c rs)
      | Except.error e => Except.error e

/-- loadFromLocalStorage, the constructor body of RecipeCache: if the
persisted timestamp parses and is within the expiry window, load the
listed entries, falling back to clearCache when any part of the load
throws; otherwise treat the cache as cold and clearCache.  The result
is none when even the fallback clearCache throws. -/
def loadFromLocalStorage (σ : Storage) (now : Nat) : Option CacheState :=
  match getItem σ timestampKey with
  | some (Cell.jNum t) =>
    if now - t < cacheExpiry then
      match readCuisineList σ with
      | some cs =>
        match loadEntries σ cs [] with
        | Except.ok m => some { mem := m, storage := σ }
        | Except.error _ => clearCache { mem := [], storage := σ }
      | none => clearCache { mem := [], storage := σ }
    else clearCache { mem := [], storage := σ }
  | _ => clearCache { mem := [], storage := σ }

/-! ## Cache-backed retrieval -/

/-- getRecipes of the cache service.  The collaborator fetchMock stands
for getMockRecipesForCuisine.  The Bool component records whether the
collaborator was invoked. -/
def getRecipes (fetchMock : String → List Recipe) (st : CacheState)
    (cuisine : Option String) (forceRefresh : Bool) (now : Nat) :
    List Recipe × CacheState × Bool :=
  match cuisine with
  | none => (getAllRecipes st, st, false)
  | some c =>
    if hasCuisine st c && !forceRefresh then
      (getRecipesForCuisine st c, st, false)
    else
      let mockRecipes := fetchMock c
      if !mockRecipes.isEmpty then
        (mockRecipes, addRecipes st c mockRecipes now, true)
      else
        (mockRecipes, st, true)

/-- A value produced by the mock-data collaborator for one cuisine: the
source checks Array.isArray on it before caching, so the model keeps a
shape that is not an array. -/
inductive MockVal where
  | arr (rs : List Recipe)
  | notArr

/-- One step of the cache initialization loop: a cuisine already cached
is skipped, an array value is added to the cache, and a non-array value
is skipped.  The second component accumulates the cuisines for which
addRecipes was invoked. -/
def initStep (now : Nat) (acc : CacheState × List String)
    (entry : String × MockVal) : CacheState × List String :=
  if hasCuisine acc.1 entry.1 then acc
  else
    match entry.2 with
    | MockVal.arr rs => (addRecipes acc.1 entry.1 rs now, acc.2 ++ [entry.1])
    | MockVal.notArr => acc

/-- Modelled from the spec: the cache initialization routine
initializeCache of the cache service.  Its collaborator
getAllMockRecipes lives in src/services/mockData.ts, which is not part
of the sources here; per the specification it yields a mapping from
cuisine names to recipe collections, and may fail, in which case the
routine catches the exception and returns false.  The cuisines argument
of the source routine only influences logging, so the folded entries
come from the collaborator alone.  The last component lists the
cuisines for which addRecipes was invoked. -/
def initCacheAll (getAllMock : Except Unit (List (String × MockVal)))
    (cuisines : List String) (st : CacheState) (now : Nat) :
    Bool × CacheState × List String :=
  match cuisines, getAllMock with
  | _, Except.error _ => (false, st, [])
  | _, Except.ok entries =>
    let folded := entries.foldl (initStep now) (st, [])
    (true, folded.1, folded.2)

/-! ## Reachable cache states and the persistence invariant

Cuisine identifiers used by the application come from its fixed cuisine
vocabulary, none of which is named "cuisines" or "timestamp"; only such
identifiers keep the per-cuisine storage keys disjoint from the two
metadata keys of the persistence protocol. -/

def goodName (c : String) : Prop := c ≠ "cuisines" ∧ c ≠ "timestamp"

/-- The cuisine names currently recorded in the persisted cuisine list,
with the empty list for a missing or unreadable cell. -/
def listedCuisines (σ : Storage) : List String :=
  match getItem σ cuisinesKey with
  | some (Cell.jStrs ss) => ss
  | _ => []

/-- Storage-side invariant of the persistence protocol: the cuisine-list
cell, when present, holds a list of strings; every key other than the
two metadata keys is the entry key of a listed cuisine; and listed
cuisine names avoid the metadata suffixes. -/
structure SInv (σ : Storage) : Prop where
  cellOk : getItem σ cuisinesKey = none ∨
    ∃ ss, getItem σ cuisinesKey = some (Cell.jStrs ss)
  keysOk : ∀ k ∈ σ.map (fun p => p.1), k = cuisinesKey ∨ k = timestampKey ∨
    ∃ c, k = cacheKeyBase ++ c ∧ c ∈ listedCuisines σ
  listedNamesOk : ∀ c ∈ listedCuisines σ, goodName c

/-- Full invariant: the storage invariant, well-chosen in-memory cuisine
names, and the fact that every persisted per-cuisine entry belongs to a
cuisine that the in-memory map also holds. -/
structure Inv (st : CacheState) : Prop where
  sinv : SInv st.storage
  memNamesOk : ∀ c ∈ st.mem.map (fun p => p.1), goodName c
  memTie : ∀ k ∈ st.storage.map (fun p => p.1), k ≠ cuisinesKey → k ≠ timestampKey →
    ∃ c, k = cacheKeyBase ++ c ∧ c ∈ st.mem.map (fun p => p.1)

/-- Cache states reachable by the operations of the subsystem: the state
of a first visit (empty store, empty backing storage), adding a fetched
collection, clearing, reconstructing after a process restart from the
persisted storage, cache-backed retrieval, and cache initialization. -/
inductive Reachable : CacheState → Prop where
  | start : Reachable { mem := [], storage := [] }
  | add {st : CacheState} (cuisine : String) (recipes : List Recipe) (now : Nat) :
      Reachable st → goodName cuisine → Reachable (addRecipes st cuisine recipes now)
  | clear {st st' : CacheState} : Reachable st → clearCache st = some st' →
      Reachable st'
  | restart {st st' : CacheState} (now : Nat) : Reachable st →
      loadFromLocalStorage st.storage now = some st' → Reachable st'
  | fetch {st : CacheState} (f : String → List Recipe) (cuisine : Option String)
      (forceRefresh : Bool) (now : Nat) : Reachable st →
      (∀ c, cuisine = some c → goodName c) →
      Reachable (getRecipes f st cuisine forceRefresh now).2.1
  | initAll {st : CacheState} (g : Except Unit (List (String × MockVal)))
      (cuisines : List String) (now : Nat) : Reachable st →
      (∀ entries, g = Except.ok entries → ∀ e ∈ entries, goodName e.1) →
      Reachable (initCacheAll g cuisines st now).2.1

/-! ## Concrete fixtures used by witnesses and counterexamples -/

def recipeOne : Recipe :=
  { id := "mock-101", title := "Margherita Pizza", country := "Italy", region := "Europe",
    prepTime := "25 min", image := "", isFavorite := false,
    description := "Classic Italian pizza", coordinates := (41.8719, 12.5674) }

def recipeTwo : Recipe :=
  { id := "mock-201", title := "Tacos", country := "Mexico", region := "North America",
    prepTime := "20 min", image := "", isFavorite := true,
    description := "Street tacos", coordinates := (23.6345, -102.5528) }

def recipeKorea : Recipe :=
  { id := "r-k", title := "Bibimbap", country := "Korea, Republic of", region := "Asia",
    prepTime := "30 min", image := "", isFavorite := false,
    description := "Rice bowl", coordinates := (35.9078, 127.7669) }

def recipeSpain : Recipe :=
  { id := "r-s", title := "Paella", country := "Spain", region := "Europe",
    prepTime := "45 min", image := "", isFavorite := false,
    description := "Rice dish", coordinates := (40.4637, -3.7492) }

def recipeOceania : Recipe :=
  { id := "r-o", title := "Hangi", country := "Oceania", region := "Europe",
    prepTime := "10 min", image := "", isFavorite := false,
    description := "", coordinates := (0.0, 0.0) }

def recipeHexId : Recipe :=
  { id := "mock-0x64", title := "Dish", country := "Nowhere", region := "",
    prepTime := "5 min", image := "", isFavorite := false,
    description := "", coordinates := (0.0, 0.0) }

/-- A persisted storage with a fresh timestamp, two listed cuisines, a
malformed entry for the first and a well-formed entry for the second. -/
def sigmaOneBad : Storage :=
  [(timestampKey, Cell.jNum 1000),
   (cuisinesKey, Cell.jStrs ["Italian", "Mexican"]),
   (cacheKeyBase ++ "Italian", Cell.bad),
   (cacheKeyBase ++ "Mexican", Cell.jRecipes [recipeOne])]

def emptyState : CacheState := { mem := [], storage := [] }

/-- A fetch collaborator that always yields one recipe. -/
def fetchConst : String → List Recipe := fun _ => [recipeOne]

/-- A fetch collaborator that always yields nothing. -/
def fetchNone : String → List Recipe := fun _ => []

/-- A mock-data table with two nonempty cuisine collections. -/
def mockEntries : List (String × MockVal) :=
  [("Italian", MockVal.arr [recipeOne]), ("Mexican", MockVal.arr [recipeTwo])]

/-- A mock-data table whose only collection is not an array. -/
def mockEntriesNotArr : List (String × MockVal) := [("Weird", MockVal.notArr)]

/-! ## Association-list lemmas -/

theorem lookupKV_setKV_self {α : Type} (m : List (String × α)) (k : String) (v : α) :
    lookupKV (setKV m k v) k = some v := by
  induction m with
  | nil => simp [setKV, lookupKV]
  | cons p rest ih =>
    by_cases h : p.1 = k
    · simp [setKV, h, lookupKV]
    · simp [setKV, h, lookupKV, ih]

theorem lookupKV_setKV_ne {α : Type} (m : List (String × α)) (k k' : String) (v : α)
    (h : k' ≠ k) : lookupKV (setKV m k v) k' = lookupKV m k' := by
  have hkk : ¬(k = k') := fun he => h he.symm
  induction m with
  | nil => simp [setKV, lookupKV, hkk]
  | cons p rest ih =>
    by_cases hp : p.1 = k
    · subst hp
      simp [setKV, lookupKV, hkk]
    · simp [setKV, hp, lookupKV, ih]

theorem mem_fst_setKV {α : Type} (m : List (String × α)) (k a : String) (v : α) :
    a ∈ (setKV m k v).map (fun p => p.1) ↔ a = k ∨ a ∈ m.map (fun p => p.1) := by
  induction m with
  | nil => simp [setKV]
  | cons p rest ih =>
    by_cases hp : p.1 = k
    · subst hp
      simp [setKV]
    · simp only [setKV, if_neg hp, List.map_cons, List.mem_cons, ih]
      tauto

theorem lookupKV_removeKV {α : Type} (m : List (String × α)) (k k' : String) :
    lookupKV (removeKV m k) k' = if k' = k then none else lookupKV m k' := by
  induction m with
  | nil => simp [removeKV, lookupKV]
  | cons p rest ih =>
    by_cases hp : p.1 = k
    · by_cases h' : k' = k
      · subst h'
        have hres : lookupKV (removeKV rest k') k' = none := by simp [ih]
        simpa [removeKV, List.filter_cons, hp] using hres
      · have hkk' : ¬(k = k') := fun he => h' he.symm
        simp [removeKV, List.filter_cons, hp, lookupKV, hkk', h'] at ih ⊢
        exact ih
    · by_cases h' : p.1 = k'
      · have hk : ¬(k' = k) := fun he => hp (h'.symm ▸ he)
        simp [removeKV, List.filter_cons, hp, lookupKV, h', hk]
      · simp [removeKV, List.filter_cons, hp, lookupKV, h'] at ih ⊢
        exact ih

theorem lookupKV_eq_none_iff {α : Type} (m : List (String × α)) (k : String) :
    lookupKV m k = none ↔ k ∉ m.map (fun p => p.1) := by
  induction m with
  | nil => simp [lookupKV]
  | cons p rest ih =>
    by_cases hp : p.1 = k
    · simp [lookupKV, hp]
    · have h2 : ¬(k = p.1) := fun he => hp he.symm
      simp [lookupKV, hp, h2, ih]

theorem lookupKV_isSome_of_mem {α : Type} (m : List (String × α)) (k : String)
    (h : k ∈ m.map (fun p => p.1)) : ∃ v, lookupKV m k = some v := by
  rcases he : lookupKV m k with _ | v
  · exact absurd ((lookupKV_eq_none_iff m k).mp he) (by simpa using h)
  · exact ⟨v, rfl⟩

/-! ## String key disjointness -/

theorem string_append_cancel_left (a b c : String) (h : a ++ b = a ++ c) : b = c := by
  have hd : a.data ++ b.data = a.data ++ c.data := by
    have h1 : (a ++ b).data = a.data ++ b.data := rfl
    have h2 : (a ++ c).data = a.data ++ c.data := rfl
    rw [← h1, ← h2, h]
  exact String.ext (List.append_cancel_left hd)

theorem entryKey_ne_cuisinesKey {c : String} (h : c ≠ "cuisines") :
    cacheKeyBase ++ c ≠ cuisinesKey := by
  intro he
  exact h (string_append_cancel_left cacheKeyBase c "cuisines"
    (he.trans (rfl : cuisinesKey = cacheKeyBase ++ "cuisines")))

theorem entryKey_ne_timestampKey {c : String} (h : c ≠ "timestamp") :
    cacheKeyBase ++ c ≠ timestampKey := by
  intro he
  exact h (string_append_cancel_left cacheKeyBase c "timestamp"
    (he.trans (rfl : timestampKey = cacheKeyBase ++ "timestamp")))

theorem entryKey_inj {c c' : String} (h : cacheKeyBase ++ c = cacheKeyBase ++ c') :
    c = c' := string_append_cancel_left cacheKeyBase c c' h

/-! ## Cache operation lemmas -/

theorem mem_addRecipes_lookup (st : CacheState) (c c' : String) (rs : List Recipe)
    (now : Nat) :
    lookupKV (addRecipes st c rs now).mem c' =
      if c' = c then some rs else lookupKV st.mem c' := by
  by_cases h : c' = c
  · subst h
    simp [addRecipes, lookupKV_setKV_self]
  · simp [addRecipes, h, lookupKV_setKV_ne st.mem c c' rs h]

theorem hasCuisine_addRecipes (st : CacheState) (c c' : String) (rs : List Recipe)
    (now : Nat) :
    hasCuisine (addRecipes st c rs now) c' =
      if c' = c then !rs.isEmpty else hasCuisine st c' := by
  by_cases h : c' = c
  · simp [hasCuisine, mem_addRecipes_lookup, h]
  · simp [hasCuisine, mem_addRecipes_lookup, h]

theorem getRecipesForCuisine_addRecipes_self (st : CacheState) (c : String)
    (rs : List Recipe) (now : Nat) :
    getRecipesForCuisine (addRecipes st c rs now) c = rs := by
  simp [getRecipesForCuisine, mem_addRecipes_lookup]

/-! ## Lemmas on the cache initialization fold -/

theorem initFold_lookup_preserved (now : Nat) (entries : List (String × MockVal)) :
    ∀ (st : CacheState) (acc : List String) (c : String), hasCuisine st c = true →
      lookupKV ((entries.foldl (initStep now) (st, acc)).1).mem c = lookupKV st.mem c := by
  induction entries with
  | nil => intro st acc c _; rfl
  | cons e rest ih =>
    intro st acc c hc
    by_cases he : hasCuisine st e.1 = true
    · simpa [List.foldl_cons, initStep, he] using ih st acc c hc
    · have hne : e.1 ≠ c := fun heq => he (heq ▸ hc)
      have hcn : ¬(c = e.1) := fun hcc => hne hcc.symm
      cases hv : e.2 with
      | arr rs =>
        have hlook : lookupKV (addRecipes st e.1 rs now).mem c = lookupKV st.mem c := by
          rw [mem_addRecipes_lookup]
          simp [hcn]
        have hc2 : hasCuisine (addRecipes st e.1 rs now) c = true := by
          rw [hasCuisine_addRecipes]
          simp [hcn, hc]
        have := ih (addRecipes st e.1 rs now) (acc ++ [e.1]) c hc2
        simpa [List.foldl_cons, initStep, he, hv, hlook] using this
      | notArr =>
        simpa [List.foldl_cons, initStep, he, hv] using ih st acc c hc

theorem initFold_hasCuisine_preserved (now : Nat) (entries : List (String × MockVal))
    (st : CacheState) (acc : List String) (c : String) (hc : hasCuisine st c = true) :
    hasCuisine ((entries.foldl (initStep now) (st, acc)).1) c = true := by
  have h := initFold_lookup_preserved now entries st acc c hc
  simpa [hasCuisine, h] using hc

theorem initFold_establishes (now : Nat) (entries : List (String × MockVal))
    (hne : ∀ e ∈ entries, ∃ rs, e.2 = MockVal.arr rs ∧ rs ≠ []) :
    ∀ (st : CacheState) (acc : List String), ∀ e ∈ entries,
      hasCuisine ((entries.foldl (initStep now) (st, acc)).1) e.1 = true := by
  induction entries with
  | nil => intro st acc e he; cases he
  | cons e0 rest ih =>
    intro st acc e he
    obtain ⟨rs0, hv0, hrs0⟩ := hne e0 (by simp)
    have hstep : ∀ st1 acc1,
        (List.foldl (initStep now) (st1, acc1) rest).1 =
          ((e0 :: rest).foldl (initStep now) (st, acc)).1 →
        hasCuisine st1 e0.1 = true →
        hasCuisine ((e0 :: rest).foldl (initStep now) (st, acc)).1 e0.1 = true := by
      intro st1 acc1 heq h1
      rw [← heq]
      exact initFold_hasCuisine_preserved now rest st1 acc1 e0.1 h1
    rcases List.mem_cons.mp he with he | he
    · subst he
      by_cases h0 : hasCuisine st e.1 = true
      · exact hstep st acc (by simp [List.foldl_cons, initStep, h0]) h0
      · refine hstep (addRecipes st e.1 rs0 now) (acc ++ [e.1]) ?_ ?_
        · simp [List.foldl_cons, initStep, h0, hv0]
        · rw [hasCuisine_addRecipes]
          simp [List.isEmpty_iff, hrs0]
    · have hne2 : ∀ x ∈ rest, ∃ rs, x.2 = MockVal.arr rs ∧ rs ≠ [] :=
        fun x hx => hne x (by simp [hx])
      by_cases h0 : hasCuisine st e0.1 = true
      · have := ih hne2 st acc e he
        simpa [List.foldl_cons, initStep, h0] using this
      · have := ih hne2 (addRecipes st e0.1 rs0 now) (acc ++ [e0.1]) e he
        simpa [List.foldl_cons, initStep, h0, hv0] using this

theorem initFold_skips (now : Nat) (entries : List (String × MockVal)) :
    ∀ (st : CacheState) (acc : List String),
      (∀ e ∈ entries, hasCuisine st e.1 = true) →
      entries.foldl (initStep now) (st, acc) = (st, acc) := by
  induction entries with
  | nil => intro st acc _; rfl
  | cons e rest ih =>
    intro st acc hall
    have h0 : hasCuisine st e.1 = true := hall e (by simp)
    have := ih st acc (fun x hx => hall x (by simp [hx]))
    simpa [List.foldl_cons, initStep, h0] using this

theorem initFold_notArr_untouched (now : Nat) (entries : List (String × MockVal)) :
    ∀ (st : CacheState) (acc : List String) (c : String),
      (∀ v, (c, v) ∈ entries → v = MockVal.notArr) →
      lookupKV ((entries.foldl (initStep now) (st, acc)).1).mem c = lookupKV st.mem c := by
  induction entries with
  | nil => intro st acc c _; rfl
  | cons e rest ih =>
    intro st acc c hna
    have hrest : ∀ v, (c, v) ∈ rest → v = MockVal.notArr :=
      fun v hv => hna v (by simp [hv])
    by_cases he : hasCuisine st e.1 = true
    · simpa [List.foldl_cons, initStep, he] using ih st acc c hrest
    · cases hv : e.2 with
      | arr rs =>
        have hne : e.1 ≠ c := by
          intro heq
          have : e.2 = MockVal.notArr := by
            refine hna e.2 ?_
            rcases e with ⟨e1, e2⟩
            simpa using Or.inl (by rw [← heq])
          rw [hv] at this
          cases this
        have hcn : ¬(c = e.1) := fun hcc => hne hcc.symm
        have hlook : lookupKV (addRecipes st e.1 rs now).mem c = lookupKV st.mem c := by
          rw [mem_addRecipes_lookup]
          simp [hcn]
        have := ih (addRecipes st e.1 rs now) (acc ++ [e.1]) c hrest
        simpa [List.foldl_cons, initStep, he, hv, hlook] using this
      | notArr =>
        simpa [List.foldl_cons, initStep, he, hv] using ih st acc c hrest

/-! ## Lemmas on the persistence loader -/

theorem loadEntries_error_of_bad (σ : Storage) :
    ∀ (cs : List String) (m0 : List (String × List Recipe)) (c : String),
      c ∈ cs → getItem σ (cacheKeyBase ++ c) = some Cell.bad →
      loadEntries σ cs m0 = Except.error () := by
  intro cs
  induction cs with
  | nil => intro m0 c hc; cases hc
  | cons c0 rest ih =>
    intro m0 c hc hbad
    rcases List.mem_cons.mp hc with hc | hc
    · subst hc
      simp [loadEntries, hbad, parseRecipes]
    · cases hcell : getItem σ (cacheKeyBase ++ c0) with
      | none => simpa [loadEntries, hcell] using ih m0 c hc hbad
      | some cell =>
        cases cell with
        | jRecipes rs =>
          simpa [loadEntries, hcell, parseRecipes] using ih (setKV m0 c0 rs) c hc hbad
        | jNum n => simp [loadEntries, hcell, parseRecipes]
        | jStrs ss => simp [loadEntries, hcell, parseRecipes]
        | bad => simp [loadEntries, hcell, parseRecipes]

theorem loadEntries_keys_sub (σ : Storage) :
    ∀ (cs : List String) (m0 m : List (String × List Recipe)),
      loadEntries σ cs m0 = Except.ok m →
      ∀ a ∈ m.map (fun p => p.1), a ∈ cs ∨ a ∈ m0.map (fun p => p.1) := by
  intro cs
  induction cs with
  | nil =>
    intro m0 m h a ha
    simp [loadEntries] at h
    subst h
    exact Or.inr ha
  | cons c0 rest ih =>
    intro m0 m h a ha
    cases hcell : getItem σ (cacheKeyBase ++ c0) with
    | none =>
      rw [loadEntries, hcell] at h
      rcases ih m0 m h a ha with h1 | h1
      · exact Or.inl (by simp [h1])
      · exact Or.inr h1
    | some cell =>
      cases cell with
      | jRecipes rs =>
        rw [loadEntries, hcell] at h
        simp only [parseRecipes] at h
        rcases ih (setKV m0 c0 rs) m h a ha with h1 | h1
        · exact Or.inl (by simp [h1])
        · rcases (mem_fst_setKV m0 c0 a rs).mp h1 with h2 | h2
          · exact Or.inl (by simp [h2])
          · exact Or.inr h2
      | jNum n => rw [loadEntries, hcell] at h; simp [parseRecipes] at h
      | jStrs ss => rw [loadEntries, hcell] at h; simp [parseRecipes] at h
      | bad => rw [loadEntries, hcell] at h; simp [parseRecipes] at h

theorem loadEntries_keys_mono (σ : Storage) :
    ∀ (cs : List String) (m0 m : List (String × List Recipe)),
      loadEntries σ cs m0 = Except.ok m →
      ∀ a ∈ m0.map (fun p => p.1), a ∈ m.map (fun p => p.1) := by
  intro cs
  induction cs with
  | nil =>
    intro m0 m h a ha
    simp [loadEntries] at h
    subst h
    exact ha
  | cons c0 rest ih =>
    intro m0 m h a ha
    cases hcell : getItem σ (cacheKeyBase ++ c0) with
    | none =>
      rw [loadEntries, hcell] at h
      exact ih m0 m h a ha
    | some cell =>
      cases cell with
      | jRecipes rs =>
        rw [loadEntries, hcell] at h
        simp only [parseRecipes] at h
        exact ih (setKV m0 c0 rs) m h a ((mem_fst_setKV m0 c0 a rs).mpr (Or.inr ha))
      | jNum n => rw [loadEntries, hcell] at h; simp [parseRecipes] at h
      | jStrs ss => rw [loadEntries, hcell] at h; simp [parseRecipes] at h
      | bad => rw [loadEntries, hcell] at h; simp [parseRecipes] at h

theorem loadEntries_covers (σ : Storage) :
    ∀ (cs : List String) (m0 m : List (String × List Recipe)),
      loadEntries σ cs m0 = Except.ok m →
      ∀ c ∈ cs, (∃ cell, getItem σ (cacheKeyBase ++ c) = some cell) →
      c ∈ m.map (fun p => p.1) := by
  intro cs
  induction cs with
  | nil => intro m0 m h c hc; cases hc
  | cons c0 rest ih =>
    intro m0 m h c hc hcell
    rcases List.mem_cons.mp hc with hc | hc
    · subst hc
      obtain ⟨cell, hcell⟩ := hcell
      rw [loadEntries, hcell] at h
      cases cell with
      | jRecipes rs =>
        simp only [parseRecipes] at h
        exact loadEntries_keys_mono σ rest (setKV m0 c rs) m h c
          ((mem_fst_setKV m0 c c rs).mpr (Or.inl rfl))
      | jNum n => simp [parseRecipes] at h
      | jStrs ss => simp [parseRecipes] at h
      | bad => simp [parseRecipes] at h
    · cases hcell0 : getItem σ (cacheKeyBase ++ c0) with
      | none =>
        rw [loadEntries, hcell0] at h
        exact ih m0 m h c hc hcell
      | some cell0 =>
        cases cell0 with
        | jRecipes rs =>
          rw [loadEntries, hcell0] at h
          simp only [parseRecipes] at h
          exact ih (setKV m0 c0 rs) m h c hc hcell
        | jNum n => rw [loadEntries, hcell0] at h; simp [parseRecipes] at h
        | jStrs ss => rw [loadEntries, hcell0] at h; simp [parseRecipes] at h
        | bad => rw [loadEntries, hcell0] at h; simp [parseRecipes] at h

/-! ## Lemmas on storage writes and removals -/

theorem getItem_setItem_self (σ : Storage) (k : String) (v : Cell) :
    getItem (setItem σ k v) k = some v := lookupKV_setKV_self σ k v

theorem getItem_setItem_ne (σ : Storage) (k k' : String) (v : Cell) (h : k' ≠ k) :
    getItem (setItem σ k v) k' = getItem σ k' := lookupKV_setKV_ne σ k k' v h

theorem getItem_removeItem (σ : Storage) (k k' : String) :
    getItem (removeItem σ k) k' = if k' = k then none else getItem σ k' :=
  lookupKV_removeKV σ k k'

theorem getItem_foldSetEntries_ne (mem : List (String × List Recipe)) :
    ∀ (σ : Storage) (k : String), (∀ p ∈ mem, cacheKeyBase ++ p.1 ≠ k) →
    getItem (mem.foldl (fun acc p => setItem acc (cacheKeyBase ++ p.1) (Cell.jRecipes p.2)) σ) k
      = getItem σ k := by
  induction mem with
  | nil => intro σ k _; rfl
  | cons p rest ih =>
    intro σ k hne
    have h0 : cacheKeyBase ++ p.1 ≠ k := hne p (by simp)
    have hrest : ∀ q ∈ rest, cacheKeyBase ++ q.1 ≠ k := fun q hq => hne q (by simp [hq])
    rw [List.foldl_cons, ih _ k hrest,
      getItem_setItem_ne σ (cacheKeyBase ++ p.1) k (Cell.jRecipes p.2)
        (fun he => h0 he.symm)]

theorem keys_foldSetEntries_sub (mem : List (String × List Recipe)) :
    ∀ (σ : Storage) (a : String),
    a ∈ (mem.foldl (fun acc p => setItem acc (cacheKeyBase ++ p.1) (Cell.jRecipes p.2)) σ).map
        (fun p => p.1) →
    a ∈ σ.map (fun p => p.1) ∨ ∃ p ∈ mem, a = cacheKeyBase ++ p.1 := by
  induction mem with
  | nil => intro σ a ha; exact Or.inl ha
  | cons p rest ih =>
    intro σ a ha
    rcases ih _ a ha with h1 | h1
    · rcases (mem_fst_setKV σ (cacheKeyBase ++ p.1) a (Cell.jRecipes p.2)).mp h1 with h2 | h2
      · exact Or.inr ⟨p, by simp, h2⟩
      · exact Or.inl h2
    · obtain ⟨q, hq, hqa⟩ := h1
      exact Or.inr ⟨q, by simp [hq], hqa⟩

theorem getItem_foldRemove_none (base : String) :
    ∀ (cs : List String) (σ : Storage) (k : String), getItem σ k = none →
    getItem (cs.foldl (fun acc c => removeItem acc (base ++ c)) σ) k = none := by
  intro cs
  induction cs with
  | nil => intro σ k h; exact h
  | cons c0 rest ih =>
    intro σ k h
    refine ih _ k ?_
    rw [getItem_removeItem]
    by_cases hk : k = base ++ c0
    · simp [hk]
    · simp [hk, h]

theorem getItem_foldRemove_mem (base : String) :
    ∀ (cs : List String) (σ : Storage) (c : String), c ∈ cs →
    getItem (cs.foldl (fun acc c => removeItem acc (base ++ c)) σ) (base ++ c) = none := by
  intro cs
  induction cs with
  | nil => intro σ c hc; cases hc
  | cons c0 rest ih =>
    intro σ c hc
    rcases List.mem_cons.mp hc with hc | hc
    · subst hc
      refine getItem_foldRemove_none base rest _ _ ?_
      rw [getItem_removeItem]
      simp
    · exact ih _ c hc

theorem getItem_foldRemove_ne (base : String) :
    ∀ (cs : List String) (σ : Storage) (k : String), (∀ c ∈ cs, k ≠ base ++ c) →
    getItem (cs.foldl (fun acc c => removeItem acc (base ++ c)) σ) k = getItem σ k := by
  intro cs
  induction cs with
  | nil => intro σ k _; rfl
  | cons c0 rest ih =>
    intro σ k hne
    rw [List.foldl_cons, ih _ k (fun c hc => hne c (by simp [hc])), getItem_removeItem]
    simp [hne c0 (by simp)]

/-! ## Clearing and saving the backing store -/

theorem mem_of_lookupKV_some {α : Type} {m : List (String × α)} {k : String} {v : α}
    (h : lookupKV m k = some v) : k ∈ m.map (fun p => p.1) := by
  by_contra hk
  rw [(lookupKV_eq_none_iff m k).mpr hk] at h
  cases h

theorem readCuisineList_eq_listed {σ : Storage} {cs : List String}
    (h : readCuisineList σ = some cs) : listedCuisines σ = cs := by
  unfold readCuisineList at h
  unfold listedCuisines
  cases hcell : getItem σ cuisinesKey with
  | none => rw [hcell] at h; simpa using h.symm
  | some cell =>
    cases cell with
    | jStrs ss => rw [hcell] at h; simpa using h
    | jNum n => rw [hcell] at h; cases h
    | jRecipes rs => rw [hcell] at h; cases h
    | bad => rw [hcell] at h; cases h

theorem clearStorage_spec {σ : Storage} (hs : SInv σ) :
    ∃ σf, clearStorage σ = some σf ∧ ∀ k, getItem σf k = none := by
  have hread : readCuisineList σ = some (listedCuisines σ) := by
    rcases hs.cellOk with hnone | ⟨ss, hss⟩
    · simp [readCuisineList, listedCuisines, hnone]
    · simp [readCuisineList, listedCuisines, hss]
  refine ⟨removeItem (removeItem
      ((listedCuisines σ).foldl (fun acc c => removeItem acc (cacheKeyBase ++ c)) σ)
      cuisinesKey) timestampKey, by simp [clearStorage, hread], ?_⟩
  intro k
  rw [getItem_removeItem]
  by_cases hts : k = timestampKey
  · simp [hts]
  · rw [if_neg hts, getItem_removeItem]
    by_cases hcu : k = cuisinesKey
    · simp [hcu]
    · rw [if_neg hcu]
      cases hk : getItem σ k with
      | none => exact getItem_foldRemove_none cacheKeyBase (listedCuisines σ) σ k hk
      | some v =>
        obtain hmem := mem_of_lookupKV_some hk
        rcases hs.keysOk k hmem with h1 | h1 | ⟨c, hkc, hcl⟩
        · exact absurd h1 hcu
        · exact absurd h1 hts
        · rw [hkc]
          exact getItem_foldRemove_mem cacheKeyBase (listedCuisines σ) σ c hcl

theorem clearCache_spec {st : CacheState} (hs : SInv st.storage) :
    ∃ st', clearCache st = some st' ∧ st'.mem = [] ∧
      ∀ k, getItem st'.storage k = none := by
  obtain ⟨σf, h1, h2⟩ := clearStorage_spec hs
  exact ⟨{ mem := [], storage := σf }, by simp [clearCache, h1], rfl, h2⟩

theorem sinv_of_all_none {σ : Storage} (h : ∀ k, getItem σ k = none) : SInv σ := by
  refine ⟨Or.inl (h cuisinesKey), ?_, ?_⟩
  · intro k hk
    obtain ⟨v, hv⟩ := lookupKV_isSome_of_mem σ k hk
    have hn := h k
    simp only [getItem] at hn
    rw [hn] at hv
    cases hv
  · intro c hc
    simp [listedCuisines, h cuisinesKey] at hc

theorem inv_of_cleared {st : CacheState} (hmem : st.mem = [])
    (h : ∀ k, getItem st.storage k = none) : Inv st := by
  refine ⟨sinv_of_all_none h, ?_, ?_⟩
  · intro c hc
    rw [hmem] at hc
    cases hc
  · intro k hk _ _
    obtain ⟨v, hv⟩ := lookupKV_isSome_of_mem st.storage k hk
    have hn := h k
    simp only [getItem] at hn
    rw [hn] at hv
    cases hv

theorem save_cuisinesCell (mem : List (String × List Recipe)) (now : Nat) (σ : Storage)
    (hg : ∀ c ∈ mem.map (fun p => p.1), goodName c) :
    getItem (saveToLocalStorage mem now σ) cuisinesKey
      = some (Cell.jStrs (mem.map (fun p => p.1))) := by
  unfold saveToLocalStorage
  rw [getItem_foldSetEntries_ne mem _ cuisinesKey
    (fun p hp => entryKey_ne_cuisinesKey
      (hg p.1 (List.mem_map.mpr ⟨p, hp, rfl⟩)).1)]
  exact getItem_setItem_self _ cuisinesKey _

theorem listed_save (mem : List (String × List Recipe)) (now : Nat) (σ : Storage)
    (hg : ∀ c ∈ mem.map (fun p => p.1), goodName c) :
    listedCuisines (saveToLocalStorage mem now σ) = mem.map (fun p => p.1) := by
  simp [listedCuisines, save_cuisinesCell mem now σ hg]

theorem keys_save_sub (mem : List (String × List Recipe)) (now : Nat) (σ : Storage)
    (a : String) (ha : a ∈ (saveToLocalStorage mem now σ).map (fun p => p.1)) :
    a ∈ σ.map (fun p => p.1) ∨ a = timestampKey ∨ a = cuisinesKey ∨
      ∃ p ∈ mem, a = cacheKeyBase ++ p.1 := by
  unfold saveToLocalStorage at ha
  rcases keys_foldSetEntries_sub mem _ a ha with h1 | h1
  · rcases (mem_fst_setKV _ cuisinesKey a _).mp h1 with h2 | h2
    · exact Or.inr (Or.inr (Or.inl h2))
    · rcases (mem_fst_setKV _ timestampKey a _).mp h2 with h3 | h3
      · exact Or.inr (Or.inl h3)
      · exact Or.inl h3
  · exact Or.inr (Or.inr (Or.inr h1))

/-! ## Invariant preservation -/

theorem inv_start : Inv { mem := [], storage := [] } := by
  refine ⟨⟨Or.inl rfl, ?_, ?_⟩, ?_, ?_⟩ <;> intro x hx <;> cases hx

theorem inv_addRecipes {st : CacheState} (hi : Inv st) (c : String) (rs : List Recipe)
    (now : Nat) (hg : goodName c) : Inv (addRecipes st c rs now) := by
  have hmemNames : ∀ a ∈ (setKV st.mem c rs).map (fun p => p.1), goodName a := by
    intro a ha
    rcases (mem_fst_setKV st.mem c a rs).mp ha with h1 | h1
    · exact h1 ▸ hg
    · exact hi.memNamesOk a h1
  have hcell := save_cuisinesCell (setKV st.mem c rs) now st.storage hmemNames
  have hlisted := listed_save (setKV st.mem c rs) now st.storage hmemNames
  have hsto : (addRecipes st c rs now).storage
      = saveToLocalStorage (setKV st.mem c rs) now st.storage := rfl
  have hdecomp : ∀ k ∈ (addRecipes st c rs now).storage.map (fun p => p.1),
      k = cuisinesKey ∨ k = timestampKey ∨
      ∃ c0, k = cacheKeyBase ++ c0 ∧ c0 ∈ (setKV st.mem c rs).map (fun p => p.1) := by
    intro k hk
    rcases keys_save_sub (setKV st.mem c rs) now st.storage k hk with h1 | h1 | h1 | h1
    · by_cases hc1 : k = cuisinesKey
      · exact Or.inl hc1
      · by_cases hc2 : k = timestampKey
        · exact Or.inr (Or.inl hc2)
        · obtain ⟨c0, hk0, hc0⟩ := hi.memTie k h1 hc1 hc2
          exact Or.inr (Or.inr ⟨c0, hk0, (mem_fst_setKV st.mem c c0 rs).mpr (Or.inr hc0)⟩)
    · exact Or.inr (Or.inl h1)
    · exact Or.inl h1
    · obtain ⟨p, hp, hkp⟩ := h1
      exact Or.inr (Or.inr ⟨p.1, hkp, List.mem_map.mpr ⟨p, hp, rfl⟩⟩)
  refine ⟨⟨Or.inr ⟨_, hcell⟩, ?_, ?_⟩, hmemNames, ?_⟩
  · intro k hk
    rcases hdecomp k hk with h1 | h1 | ⟨c0, hk0, hc0⟩
    · exact Or.inl h1
    · exact Or.inr (Or.inl h1)
    · refine Or.inr (Or.inr ⟨c0, hk0, ?_⟩)
      rw [hsto, hlisted]
      exact hc0
  · intro c0 hc0
    rw [hsto, hlisted] at hc0
    exact hmemNames c0 hc0
  · intro k hk h1 h2
    rcases hdecomp k hk with h | h | h
    · exact absurd h h1
    · exact absurd h h2
    · exact h

theorem inv_of_clear_some (st st' : CacheState) (hs : SInv st.storage)
    (h : clearCache st = some st') :
    Inv st' ∧ st'.mem = [] ∧ ∀ k, getItem st'.storage k = none := by
  obtain ⟨st'', h1, h2, h3⟩ := clearCache_spec hs
  rw [h1] at h
  injection h with h
  subst h
  exact ⟨inv_of_cleared h2 h3, h2, h3⟩

theorem inv_load {σ : Storage} (hs : SInv σ) {now : Nat} {st' : CacheState}
    (h : loadFromLocalStorage σ now = some st') : Inv st' := by
  have hclear : clearCache { mem := [], storage := σ } = some st' → Inv st' :=
    fun hc => (inv_of_clear_some { mem := [], storage := σ } _ hs hc).1
  unfold loadFromLocalStorage at h
  cases hts : getItem σ timestampKey with
  | none => rw [hts] at h; exact hclear h
  | some cell =>
    rw [hts] at h
    cases cell with
    | jStrs ss => exact hclear h
    | jRecipes rs => exact hclear h
    | bad => exact hclear h
    | jNum t =>
      replace h : (if now - t < cacheExpiry then
          match readCuisineList σ with
          | some cs =>
            match loadEntries σ cs [] with
            | Except.ok m => some { mem := m, storage := σ }
            | Except.error _ => clearCache { mem := [], storage := σ }
          | none => clearCache { mem := [], storage := σ }
        else clearCache { mem := [], storage := σ }) = some st' := h
      by_cases hfresh : now - t < cacheExpiry
      · rw [if_pos hfresh] at h
        cases hrc : readCuisineList σ with
        | none => rw [hrc] at h; exact hclear h
        | some cs =>
          rw [hrc] at h
          replace h : (match loadEntries σ cs [] with
            | Except.ok m => some { mem := m, storage := σ }
            | Except.error _ => clearCache { mem := [], storage := σ }) = some st' := h
          cases hle : loadEntries σ cs [] with
          | error e => rw [hle] at h; exact hclear h
          | ok m =>
            rw [hle] at h
            injection h with h
            subst h
            have hlcs : listedCuisines σ = cs := readCuisineList_eq_listed hrc
            refine ⟨hs, ?_, ?_⟩
            · intro a ha
              rcases loadEntries_keys_sub σ cs [] m hle a ha with h1 | h1
              · exact hs.listedNamesOk a (hlcs ▸ h1)
              · cases h1
            · intro k hk h1 h2
              rcases hs.keysOk k hk with hcase | hcase | ⟨c0, hk0, hc0⟩
              · exact absurd hcase h1
              · exact absurd hcase h2
              · refine ⟨c0, hk0, ?_⟩
                have hkmem : cacheKeyBase ++ c0 ∈ σ.map (fun p => p.1) := hk0 ▸ hk
                obtain ⟨v, hv⟩ := lookupKV_isSome_of_mem σ _ hkmem
                exact loadEntries_covers σ cs [] m hle c0 (hlcs ▸ hc0) ⟨v, hv⟩
      · rw [if_neg hfresh] at h
        exact hclear h

theorem getRecipes_state (f : String → List Recipe) (st : CacheState)
    (cuisine : Option String) (fr : Bool) (now : Nat) :
    (getRecipes f st cuisine fr now).2.1 = st ∨
      ∃ c, cuisine = some c ∧
        (getRecipes f st cuisine fr now).2.1 = addRecipes st c (f c) now := by
  cases cuisine with
  | none => exact Or.inl rfl
  | some c =>
    by_cases h1 : (hasCuisine st c && !fr) = true
    · exact Or.inl (by simp [getRecipes, h1])
    · by_cases h2 : (f c).isEmpty = true
      · exact Or.inl (by simp [getRecipes, h1, h2])
      · exact Or.inr ⟨c, rfl, by simp [getRecipes, h1, h2]⟩

theorem inv_initFold (now : Nat) (entries : List (String × MockVal))
    (hg : ∀ e ∈ entries, goodName e.1) :
    ∀ (st : CacheState) (acc : List String), Inv st →
      Inv ((entries.foldl (initStep now) (st, acc)).1) := by
  induction entries with
  | nil => intro st acc hi; exact hi
  | cons e rest ih =>
    intro st acc hi
    have hgrest : ∀ x ∈ rest, goodName x.1 := fun x hx => hg x (by simp [hx])
    by_cases he : hasCuisine st e.1 = true
    · have := ih hgrest st acc hi
      simpa [List.foldl_cons, initStep, he] using this
    · cases hv : e.2 with
      | arr rs =>
        have hinv : Inv (addRecipes st e.1 rs now) :=
          inv_addRecipes hi e.1 rs now (hg e (by simp))
        have := ih hgrest (addRecipes st e.1 rs now) (acc ++ [e.1]) hinv
        simpa [List.foldl_cons, initStep, he, hv] using this
      | notArr =>
        have := ih hgrest st acc hi
        simpa [List.foldl_cons, initStep, he, hv] using this

theorem reachable_inv {st : CacheState} (h : Reachable st) : Inv st := by
  induction h with
  | start => exact inv_start
  | add cuisine recipes now _ hg ih => exact inv_addRecipes ih cuisine recipes now hg
  | clear _ hcl ih => exact (inv_of_clear_some _ _ ih.sinv hcl).1
  | restart now _ hld ih => exact inv_load ih.sinv hld
  | fetch f cuisine fr now _ hg ih =>
    rcases getRecipes_state f _ cuisine fr now with h1 | ⟨c, hc, h1⟩
    · rw [h1]; exact ih
    · rw [h1]; exact inv_addRecipes ih c _ now (hg c hc)
  | initAll g cs now _ hg ih =>
    cases g with
    | error e => simpa [initCacheAll] using ih
    | ok entries => exact inv_initFold now entries (hg entries rfl) _ [] ih

/-! ## Loader evaluation lemmas -/

theorem load_eq_of_fresh_ok (σ : Storage) (now t : Nat) (cs : List String)
    (m : List (String × List Recipe))
    (hts : getItem σ timestampKey = some (Cell.jNum t))
    (hfresh : now - t < cacheExpiry)
    (hrc : readCuisineList σ = some cs)
    (hle : loadEntries σ cs [] = Except.ok m) :
    loadFromLocalStorage σ now = some { mem := m, storage := σ } := by
  unfold loadFromLocalStorage
  rw [hts]
  show (if now - t < cacheExpiry then
      match readCuisineList σ with
      | some cs =>
        match loadEntries σ cs [] with
        | Except.ok m => some { mem := m, storage := σ }
        | Except.error _ => clearCache { mem := [], storage := σ }
      | none => clearCache { mem := [], storage := σ }
    else clearCache { mem := [], storage := σ }) = _
  rw [if_pos hfresh, hrc]
  show ((match loadEntries σ cs [] with
    | Except.ok m => some { mem := m, storage := σ }
    | Except.error _ => clearCache { mem := [], storage := σ }) : Option CacheState) = _
  rw [hle]

theorem load_eq_of_fresh_error (σ : Storage) (now t : Nat) (cs : List String)
    (hts : getItem σ timestampKey = some (Cell.jNum t))
    (hfresh : now - t < cacheExpiry)
    (hrc : readCuisineList σ = some cs)
    (hle : loadEntries σ cs [] = Except.error ()) :
    loadFromLocalStorage σ now = clearCache { mem := [], storage := σ } := by
  unfold loadFromLocalStorage
  rw [hts]
  show (if now - t < cacheExpiry then
      match readCuisineList σ with
      | some cs =>
        match loadEntries σ cs [] with
        | Except.ok m => some { mem := m, storage := σ }
        | Except.error _ => clearCache { mem := [], storage := σ }
      | none => clearCache { mem := [], storage := σ }
    else clearCache { mem := [], storage := σ }) = _
  rw [if_pos hfresh, hrc]
  show ((match loadEntries σ cs [] with
    | Except.ok m => some { mem := m, storage := σ }
    | Except.error _ => clearCache { mem := [], storage := σ }) : Option CacheState) = _
  rw [hle]

theorem load_eq_of_stale (σ : Storage) (now t : Nat)
    (hts : getItem σ timestampKey = some (Cell.jNum t))
    (hstale : ¬(now - t < cacheExpiry)) :
    loadFromLocalStorage σ now = clearCache { mem := [], storage := σ } := by
  unfold loadFromLocalStorage
  rw [hts]
  show (if now - t < cacheExpiry then
      match readCuisineList σ with
      | some cs =>
        match loadEntries σ cs [] with
        | Except.ok m => some { mem := m, storage := σ }
        | Except.error _ => clearCache { mem := [], storage := σ }
      | none => clearCache { mem := [], storage := σ }
    else clearCache { mem := [], storage := σ }) = _
  rw [if_neg hstale]

/-! ## toggleFavorite helper -/

theorem toggleFavorite_twice (id : String) (l : List Recipe) :
    toggleFavorite id (toggleFavorite id l) = l := by
  induction l with
  | nil => rfl
  | cons r rest ih =>
    simp only [toggleFavorite, List.map] at ih ⊢
    cases r with
    | mk rid rt rc rr rp rim rf rd rco ring rins rdt =>
      by_cases h : rid = id
      · simp [h, Bool.not_not, ih]
      · simp [h, ih]

/-! ## Claim theorems -/

/-- Claim C1, counterexample: the layered decision written as documented
disagrees with the filter of the source at two points.  First, at the
scope name Oceania, which the source treats as a continent label: for a
record with country Oceania and region Europe the source excludes while
the documented layering (country match at layer two) includes.  Second,
at the identifier layer: the documented wording covers only ids of the
exact form mock-N with N a decimal digit run, but the source feeds the
suffix to parseInt, which detects a 0x prefix as hexadecimal, so for a
record with id mock-0x64 under scope Italy the source includes (0x64 is
100, inside the Italian range) while the documented layering excludes. -/
theorem c1_claim_counterexample :
    resolveScope recipeOceania "Oceania" = false ∧
    resolveDocumented recipeOceania "Oceania" = true ∧
    recipeOceania.country = "Oceania" ∧ recipeOceania.region = "Europe" ∧
    resolveScope recipeHexId "Italy" = true ∧
    resolveDocumented recipeHexId "Italy" = false ∧
    recipeHexId.id = "mock-0x64" ∧
    jsParseInt "0x64" = some 100 :=
  ⟨rfl, rfl, rfl, rfl, by decide, by decide, rfl, by decide⟩

/-- Claim C1 (amended): the region-resolver filter decides inclusion by
the layered order with first match winning, where the continent layer
uses the seven labels of the source (the six documented ones plus
Oceania) and the identifier layer applies to ids starting with mock-,
reading the remaining suffix with the semantics of parseInt without a
radix argument (decimal leading digits, or hexadecimal after a 0x or 0X
prefix): (1) a continent-label scope compares the record region
case-insensitively; otherwise (2)-(3) a case-insensitive country
equality or two-way substring match includes; otherwise (4) an unmapped
scope excludes, and a scope mapped to a cuisine includes when title or
description contains the cuisine label; otherwise (5) inclusion equals
the mock-id range test on the parsed suffix.  In particular country
Korea, Republic of with scope Korea resolves true and country Spain
with scope Narnia resolves false. -/
theorem c1_resolver_layered (r : Recipe) (s : String) :
    (continentsList.contains s = true →
      resolveScope r s = (lower r.region == lower s)) ∧
    (continentsList.contains s = false →
      (((lower r.country == lower s) || strIncl r.country s || strIncl s r.country) = true →
        resolveScope r s = true) ∧
      (((lower r.country == lower s) || strIncl r.country s || strIncl s r.country) = false →
        (lookupKV countryToCuisine s = none → resolveScope r s = false) ∧
        ∀ tc, lookupKV countryToCuisine s = some tc →
          ((strIncl r.title tc || (r.description != "" && strIncl r.description tc)) = true →
            resolveScope r s = true) ∧
          ((strIncl r.title tc || (r.description != "" && strIncl r.description tc)) = false →
            resolveScope r s = (strStartsWith r.id "mock-" &&
              (match jsParseInt (dropChars r.id 5) with
               | some n => mockIdRangeHit tc n
               | none => false))))) ∧
    resolveScope recipeKorea "Korea" = true ∧
    resolveScope recipeSpain "Narnia" = false := by
  refine ⟨?_, ?_, rfl, rfl⟩
  · intro hcont
    unfold resolveScope
    rw [if_pos hcont]
  · intro hcont
    have hcont' : ¬(continentsList.contains s = true) := fun hx =>
      Bool.noConfusion (hcont ▸ hx)
    constructor
    · intro hm
      unfold resolveScope
      rw [if_neg hcont']
      by_cases ha : (lower r.country == lower s) = true
      · rw [if_pos ha]
      · have ha' : (lower r.country == lower s) = false := by
          simpa using ha
        have hor : (strIncl r.country s || strIncl s r.country) = true := by
          simpa [ha'] using hm
        rw [if_neg ha, if_pos hor]
    · intro hm
      simp only [Bool.or_eq_false_iff] at hm
      obtain ⟨⟨ha, hb1⟩, hb2⟩ := hm
      have ha' : ¬((lower r.country == lower s) = true) := by simp [ha]
      have hor' : ¬((strIncl r.country s || strIncl s r.country) = true) := by
        simp [hb1, hb2]
      constructor
      · intro hnone
        unfold resolveScope
        rw [if_neg hcont', if_neg ha', if_neg hor']
        simp only [hnone]
      · intro tc htc
        constructor
        · intro htit
          unfold resolveScope
          rw [if_neg hcont', if_neg ha', if_neg hor']
          simp only [htc]
          rw [if_pos htit]
        · intro htit
          unfold resolveScope
          rw [if_neg hcont', if_neg ha', if_neg hor']
          simp only [htc]
          rw [if_neg (by simp [htit])]
          cases hms : strStartsWith r.id "mock-" <;> simp [hms]

/-- Claim C1, witness: the substring layer includes the record with
country Korea, Republic of under scope Korea. -/
theorem c1_resolver_layered_witness : resolveScope recipeKorea "Korea" = true :=
  (c1_resolver_layered recipeKorea "Korea").2.2.1

/-- Claim C10: toggleFavorite preserves length and order, leaves records
with a different id entirely unchanged, changes only the isFavorite
field (negated) of matching records, and applied twice restores the
original list. -/
theorem c10_toggleFavorite_frame (id : String) (l : List Recipe) (i : Nat) (r : Recipe)
    (h : l[i]? = some r) :
    (toggleFavorite id l).length = l.length ∧
    (toggleFavorite id l)[i]? =
      some (if r.id = id then ({ r with isFavorite := !r.isFavorite } : Recipe) else r) ∧
    toggleFavorite id (toggleFavorite id l) = l := by
  refine ⟨by simp [toggleFavorite], ?_, toggleFavorite_twice id l⟩
  rw [toggleFavorite, List.getElem?_map, h]
  rfl

/-- Claim C10, witness: a concrete two-element list at index zero, where
the first record matches the toggled id. -/
theorem c10_toggleFavorite_frame_witness :
    ([recipeOne, recipeTwo][0]? = some recipeOne) ∧
    ((toggleFavorite "mock-101" [recipeOne, recipeTwo]).length
        = [recipeOne, recipeTwo].length ∧
      (toggleFavorite "mock-101" [recipeOne, recipeTwo])[0]? =
        some (if recipeOne.id = "mock-101" then
          ({ recipeOne with isFavorite := !recipeOne.isFavorite } : Recipe) else recipeOne) ∧
      toggleFavorite "mock-101" (toggleFavorite "mock-101" [recipeOne, recipeTwo])
        = [recipeOne, recipeTwo]) :=
  ⟨rfl, c10_toggleFavorite_frame "mock-101" [recipeOne, recipeTwo] 0 recipeOne rfl⟩

/-- Claim C2, counterexample: in a fresh persisted store listing Italian
and Mexican where the Italian entry is malformed and the Mexican entry
deserializes correctly, construction does not load Mexican: the whole
load aborts and the store comes up empty. -/
theorem c2_claim_counterexample :
    getItem sigmaOneBad timestampKey = some (Cell.jNum 1000) ∧
    (2000 : Nat) - 1000 < cacheExpiry ∧
    getItem sigmaOneBad cuisinesKey = some (Cell.jStrs ["Italian", "Mexican"]) ∧
    getItem sigmaOneBad (cacheKeyBase ++ "Italian") = some Cell.bad ∧
    getItem sigmaOneBad (cacheKeyBase ++ "Mexican") = some (Cell.jRecipes [recipeOne]) ∧
    parseRecipes (Cell.jRecipes [recipeOne]) = Except.ok [recipeOne] ∧
    (loadFromLocalStorage sigmaOneBad 2000).map (fun st => hasCuisine st "Mexican")
      = some false :=
  ⟨rfl, by decide, rfl, rfl, rfl, rfl, rfl⟩

/-- Claim C2 (amended): during construction with a fresh, in-window
timestamp, a deserialization failure for one persisted cuisine key
aborts the whole load: the exception is caught and the store falls back
to clearCache, so the in-memory mapping ends up empty and no key is
loaded, not even keys whose stored sequences deserialize correctly. -/
theorem c2_load_failure_clears (σ : Storage) (now t : Nat) (cs : List String) (c : String)
    (hts : getItem σ timestampKey = some (Cell.jNum t))
    (hfresh : now - t < cacheExpiry)
    (hcs : getItem σ cuisinesKey = some (Cell.jStrs cs))
    (hc : c ∈ cs)
    (hbad : getItem σ (cacheKeyBase ++ c) = some Cell.bad) :
    ∃ st', loadFromLocalStorage σ now = some st' ∧ st'.mem = [] ∧
      ∀ cuisine, hasCuisine st' cuisine = false := by
  have hrc : readCuisineList σ = some cs := by
    unfold readCuisineList
    rw [hcs]
  have herr := loadEntries_error_of_bad σ cs [] c hc hbad
  have hload := load_eq_of_fresh_error σ now t cs hts hfresh hrc herr
  have hclear : clearCache { mem := [], storage := σ } = some
      { mem := [],
        storage := (removeItem (removeItem
                     (cs.foldl (fun acc c0 => removeItem acc (cacheKeyBase ++ c0)) σ)
                     cuisinesKey) timestampKey) } := by
    simp [clearCache, clearStorage, hrc]
  exact ⟨_, hload.trans hclear, rfl, fun cuisine => rfl⟩

/-- Claim C2, witness: the concrete storage of the counterexample
satisfies every hypothesis of the amended claim. -/
theorem c2_load_failure_clears_witness :
    ∃ st', loadFromLocalStorage sigmaOneBad 2000 = some st' ∧ st'.mem = [] ∧
      ∀ cuisine, hasCuisine st' cuisine = false :=
  c2_load_failure_clears sigmaOneBad 2000 1000 ["Italian", "Mexican"] "Italian"
    rfl (by decide) rfl (by simp) rfl

/-- Claim C3: a store persisted at time T holding Italian recipes r1, r2
reproduces them when constructed one hour later; constructed
twenty-five hours later, or with the timestamp removed, or with an
unparseable timestamp, the store comes up empty and the stale persisted
entries are cleared. -/
theorem c3_persistence_round_trip (r1 r2 : Recipe) (T : Nat) :
    (∃ st1, loadFromLocalStorage
        (addRecipes { mem := [], storage := [] } "Italian" [r1, r2] T).storage
        (T + 3600000) = some st1 ∧ getAllRecipes st1 = [r1, r2]) ∧
    (∃ st2, loadFromLocalStorage
        (addRecipes { mem := [], storage := [] } "Italian" [r1, r2] T).storage
        (T + 90000000) = some st2 ∧ getAllRecipes st2 = [] ∧
        ∀ k, getItem st2.storage k = none) ∧
    (∃ st3, loadFromLocalStorage
        (removeItem (addRecipes { mem := [], storage := [] } "Italian" [r1, r2] T).storage
          timestampKey) (T + 3600000) = some st3 ∧ getAllRecipes st3 = [] ∧
        ∀ k, getItem st3.storage k = none) ∧
    (∃ st4, loadFromLocalStorage
        (setItem (addRecipes { mem := [], storage := [] } "Italian" [r1, r2] T).storage
          timestampKey Cell.bad) (T + 3600000) = some st4 ∧ getAllRecipes st4 = [] ∧
        ∀ k, getItem st4.storage k = none) := by
  have hσ : (addRecipes { mem := [], storage := [] } "Italian" [r1, r2] T).storage
      = [(timestampKey, Cell.jNum T), (cuisinesKey, Cell.jStrs ["Italian"]),
         (cacheKeyBase ++ "Italian", Cell.jRecipes [r1, r2])] := rfl
  rw [hσ]
  have hfresh : (T + 3600000) - T < cacheExpiry := by
    simp only [cacheExpiry]
    omega
  have hstale : ¬((T + 90000000) - T < cacheExpiry) := by
    simp only [cacheExpiry]
    omega
  refine ⟨⟨{ mem := [("Italian", [r1, r2])],
             storage := [(timestampKey, Cell.jNum T), (cuisinesKey, Cell.jStrs ["Italian"]),
                         (cacheKeyBase ++ "Italian", Cell.jRecipes [r1, r2])] },
      ?_, by simp [getAllRecipes]⟩,
    ⟨{ mem := [], storage := [] }, ?_, rfl, fun k => rfl⟩,
    ⟨{ mem := [], storage := [] }, rfl, rfl, fun k => rfl⟩,
    ⟨{ mem := [], storage := [] }, rfl, rfl, fun k => rfl⟩⟩
  · exact load_eq_of_fresh_ok _ _ T ["Italian"] _ rfl hfresh rfl rfl
  · exact (load_eq_of_stale
      [(timestampKey, Cell.jNum T), (cuisinesKey, Cell.jStrs ["Italian"]),
       (cacheKeyBase ++ "Italian", Cell.jRecipes [r1, r2])]
      (T + 90000000) T rfl hstale).trans rfl

/-- Claim C4: addRecipes overwrites any sequence previously stored under
the cuisine key, so reading that key afterwards returns exactly the new
sequence, whatever the prior cache state was. -/
theorem c4_addRecipes_overwrites (st : CacheState) (cuisine : String)
    (recipes : List Recipe) (now : Nat) :
    getRecipesForCuisine (addRecipes st cuisine recipes now) cuisine = recipes := by
  simp [getRecipesForCuisine, mem_addRecipes_lookup]

/-- Claim C5: when the fetch collaborator yields a nonempty sequence for
a cuisine, a second getRecipes call after the first returns the same
sequence, reads it from the cache, and does not invoke the collaborator
again. -/
theorem c5_second_call_cache_hit (f : String → List Recipe) (st : CacheState)
    (c : String) (now1 now2 : Nat) (hne : f c ≠ []) :
    (getRecipes f (getRecipes f st (some c) false now1).2.1 (some c) false now2).1
        = (getRecipes f st (some c) false now1).1 ∧
    (getRecipes f (getRecipes f st (some c) false now1).2.1 (some c) false now2).2.2
        = false ∧
    (getRecipes f (getRecipes f st (some c) false now1).2.1 (some c) false now2).1
        = getRecipesForCuisine (getRecipes f st (some c) false now1).2.1 c := by
  have hee : (f c).isEmpty = false := by
    cases hfc : f c with
    | nil => exact absurd hfc hne
    | cons a as => rfl
  cases hhc : hasCuisine st c with
  | true =>
    have h1 : getRecipes f st (some c) false now1 = (getRecipesForCuisine st c, st, false) := by
      simp [getRecipes, hhc]
    rw [h1]
    refine ⟨?_, ?_, ?_⟩ <;> simp [getRecipes, hhc]
  | false =>
    have h1 : getRecipes f st (some c) false now1
        = (f c, addRecipes st c (f c) now1, true) := by
      simp [getRecipes, hhc, hee]
    rw [h1]
    have h2 : hasCuisine (addRecipes st c (f c) now1) c = true := by
      rw [hasCuisine_addRecipes]
      simp [hee]
    refine ⟨?_, ?_, ?_⟩ <;>
      simp [getRecipes, h2, getRecipesForCuisine_addRecipes_self]

/-- Claim C5, witness: a collaborator returning one recipe, called twice
for Italian on an empty store. -/
theorem c5_second_call_cache_hit_witness :
    fetchConst "Italian" ≠ [] ∧
    ((getRecipes fetchConst (getRecipes fetchConst emptyState (some "Italian") false 1).2.1
        (some "Italian") false 2).1
      = (getRecipes fetchConst emptyState (some "Italian") false 1).1 ∧
     (getRecipes fetchConst (getRecipes fetchConst emptyState (some "Italian") false 1).2.1
        (some "Italian") false 2).2.2 = false ∧
     (getRecipes fetchConst (getRecipes fetchConst emptyState (some "Italian") false 1).2.1
        (some "Italian") false 2).1
      = getRecipesForCuisine
          (getRecipes fetchConst emptyState (some "Italian") false 1).2.1 "Italian") :=
  ⟨by simp [fetchConst],
    c5_second_call_cache_hit fetchConst emptyState "Italian" 1 2 (by simp [fetchConst])⟩

/-- Claim C6: for an uncached cuisine whose fetch yields the empty
sequence, getRecipes returns the empty sequence, leaves the cache state
(memory and persisted storage) unchanged, and the cuisine stays
uncached; the collaborator was invoked. -/
theorem c6_empty_fetch_not_cached (f : String → List Recipe) (st : CacheState)
    (c : String) (now : Nat) (h1 : hasCuisine st c = false) (h2 : f c = []) :
    getRecipes f st (some c) false now = ([], st, true) ∧
    hasCuisine (getRecipes f st (some c) false now).2.1 c = false := by
  have hmain : getRecipes f st (some c) false now = ([], st, true) := by
    simp [getRecipes, h1, h2]
  exact ⟨hmain, by rw [hmain]; exact h1⟩

/-- Claim C6, witness: the always-empty collaborator on an empty store. -/
theorem c6_empty_fetch_not_cached_witness :
    hasCuisine emptyState "Thai" = false ∧ fetchNone "Thai" = [] ∧
    (getRecipes fetchNone emptyState (some "Thai") false 7 = ([], emptyState, true) ∧
     hasCuisine (getRecipes fetchNone emptyState (some "Thai") false 7).2.1 "Thai" = false) :=
  ⟨rfl, rfl, c6_empty_fetch_not_cached fetchNone emptyState "Thai" 7 rfl rfl⟩

/-- Claim C7: with every mock collection a nonempty array, running the
cache initialization twice performs the per-cuisine add work only in the
first run (the second run adds nothing and leaves the state unchanged),
and any cuisine already cached before a run keeps its stored sequence
untouched by that run. -/
theorem c7_initialization_idempotent (entries : List (String × MockVal))
    (cs1 cs2 : List String) (st : CacheState) (now1 now2 : Nat)
    (hne : ∀ e ∈ entries, ∃ rs, e.2 = MockVal.arr rs ∧ rs ≠ []) :
    (initCacheAll (Except.ok entries) cs2
        (initCacheAll (Except.ok entries) cs1 st now1).2.1 now2).2.1
      = (initCacheAll (Except.ok entries) cs1 st now1).2.1 ∧
    (initCacheAll (Except.ok entries) cs2
        (initCacheAll (Except.ok entries) cs1 st now1).2.1 now2).2.2 = [] ∧
    ∀ c, hasCuisine st c = true →
      getRecipesForCuisine (initCacheAll (Except.ok entries) cs1 st now1).2.1 c
        = getRecipesForCuisine st c := by
  have hfold1 : (initCacheAll (Except.ok entries) cs1 st now1).2.1
      = (entries.foldl (initStep now1) (st, [])).1 := rfl
  have hall : ∀ e ∈ entries,
      hasCuisine ((entries.foldl (initStep now1) (st, [])).1) e.1 = true :=
    initFold_establishes now1 entries hne st []
  have hskip := initFold_skips now2 entries
    ((entries.foldl (initStep now1) (st, [])).1) [] hall
  have hsecond : initCacheAll (Except.ok entries) cs2
      ((entries.foldl (initStep now1) (st, [])).1) now2
      = (true, (entries.foldl (initStep now1) (st, [])).1, []) := by
    show (true,
      (entries.foldl (initStep now2) ((entries.foldl (initStep now1) (st, [])).1, [])).1,
      (entries.foldl (initStep now2) ((entries.foldl (initStep now1) (st, [])).1, [])).2)
      = _
    rw [hskip]
  refine ⟨?_, ?_, ?_⟩
  · rw [hfold1, hsecond]
  · rw [hfold1, hsecond]
  · intro c hc
    have hpres := initFold_lookup_preserved now1 entries st [] c hc
    rw [hfold1]
    simp [getRecipesForCuisine, hpres]

/-- Claim C7, witness: two nonempty mock collections, initialized twice
from the empty store. -/
theorem c7_initialization_idempotent_witness :
    (∀ e ∈ mockEntries, ∃ rs, e.2 = MockVal.arr rs ∧ rs ≠ []) ∧
    ((initCacheAll (Except.ok mockEntries) ["Italian", "Mexican"]
        (initCacheAll (Except.ok mockEntries) ["Italian", "Mexican"] emptyState 1).2.1 2).2.1
      = (initCacheAll (Except.ok mockEntries) ["Italian", "Mexican"] emptyState 1).2.1 ∧
     (initCacheAll (Except.ok mockEntries) ["Italian", "Mexican"]
        (initCacheAll (Except.ok mockEntries) ["Italian", "Mexican"] emptyState 1).2.1 2).2.2
      = [] ∧
     ∀ c, hasCuisine emptyState c = true →
       getRecipesForCuisine
           (initCacheAll (Except.ok mockEntries) ["Italian", "Mexican"] emptyState 1).2.1 c
         = getRecipesForCuisine emptyState c) := by
  have hne : ∀ e ∈ mockEntries, ∃ rs, e.2 = MockVal.arr rs ∧ rs ≠ [] := by
    intro e he
    simp only [mockEntries, List.mem_cons, List.not_mem_nil, or_false] at he
    rcases he with h | h
    · subst h
      exact ⟨[recipeOne], rfl, by simp⟩
    · subst h
      exact ⟨[recipeTwo], rfl, by simp⟩
  exact ⟨hne, c7_initialization_idempotent mockEntries
    ["Italian", "Mexican"] ["Italian", "Mexican"] emptyState 1 2 hne⟩

/-- Claim C8: the cache initialization routine never propagates an
exception: a failing collaborator is caught and converted to a false
return with the state untouched, a successful run returns true, and a
cuisine whose collection is not an array is skipped rather than added. -/
theorem c8_initialization_defensive (cuisines : List String) (st : CacheState)
    (now : Nat) (entries : List (String × MockVal)) (c : String)
    (hna : ∀ v, (c, v) ∈ entries → v = MockVal.notArr) :
    initCacheAll (Except.error ()) cuisines st now = (false, st, []) ∧
    (initCacheAll (Except.ok entries) cuisines st now).1 = true ∧
    lookupKV ((initCacheAll (Except.ok entries) cuisines st now).2.1).mem c
      = lookupKV st.mem c :=
  ⟨rfl, rfl, initFold_notArr_untouched now entries st [] c hna⟩

/-- Claim C8, witness: one non-array collection is skipped, and a failed
collaborator yields false. -/
theorem c8_initialization_defensive_witness :
    (∀ v, ("Weird", v) ∈ mockEntriesNotArr → v = MockVal.notArr) ∧
    (initCacheAll (Except.error ()) ["Weird"] emptyState 3 = (false, emptyState, []) ∧
     (initCacheAll (Except.ok mockEntriesNotArr) ["Weird"] emptyState 3).1 = true ∧
     lookupKV ((initCacheAll (Except.ok mockEntriesNotArr) ["Weird"] emptyState 3).2.1).mem
         "Weird" = lookupKV emptyState.mem "Weird") := by
  have hna : ∀ v, ("Weird", v) ∈ mockEntriesNotArr → v = MockVal.notArr := by
    intro v hv
    simp only [mockEntriesNotArr, List.mem_cons, List.not_mem_nil, or_false,
      Prod.mk.injEq, true_and] at hv
    exact hv
  exact ⟨hna, c8_initialization_defensive ["Weird"] emptyState 3 mockEntriesNotArr "Weird" hna⟩

/-- Claim C9: on every reachable cache state, clearCache succeeds, every
cuisine reads as uncached afterwards, and the persisted backing store
holds no key at all: no per-cuisine entry, no cuisine-name list, no
timestamp. -/
theorem c9_clearCache_empties (st : CacheState) (h : Reachable st) :
    ∃ st', clearCache st = some st' ∧ (∀ cuisine, hasCuisine st' cuisine = false) ∧
      ∀ k, getItem st'.storage k = none := by
  obtain ⟨st', h1, h2, h3⟩ := clearCache_spec (reachable_inv h).sinv
  refine ⟨st', h1, ?_, h3⟩
  intro cuisine
  simp [hasCuisine, h2, lookupKV]

/-- Claim C9, witness: the state reached by adding one Italian
collection to a fresh store. -/
theorem c9_clearCache_empties_witness :
    ∃ st', clearCache (addRecipes { mem := [], storage := [] } "Italian" [recipeOne] 5)
        = some st' ∧ (∀ cuisine, hasCuisine st' cuisine = false) ∧
      ∀ k, getItem st'.storage k = none :=
  c9_clearCache_empties _
    (Reachable.add "Italian" [recipeOne] 5 Reachable.start ⟨by decide, by decide⟩)

end GlobeDine
